import Mathlib

/-!
Verification of `solexa_reads_filter.py`, a paired-end FASTQ quality filter.

The development is a shallow embedding of the Python source:

* `parse_fastq` — the 4-line record reader (source lines 27–54), modelled
  over the list of decoded text lines of the input file;
* `is_s35_bad`, `is_ns`, `is_polyn` — the three per-mate filter predicates
  (source lines 125–179);
* `solexa_reads_filter` — the streaming pipeline (source lines 57–109),
  modelled over the list of read pairs produced by `izip` of the two
  record streams, with the module counters made an explicit `RunStats`
  record threaded through the recursion;
* `report` — the end-of-stream statistics computation (source lines
  104–109), with Python's raising `float` division modelled as `Except`.

Python's unbounded integers are `Nat`/`Int`; Python float division in
`is_polyn` and `report` is modelled by exact rational division (the two
agree at every read length a machine can hold).
-/

/-- A FASTQ record: the four stripped lines (name, sequence, spacer,
quality) yielded by `parse_fastq` (source line 50). -/
structure Record where
  name : String
  seq : String
  spacer : String
  qua : String
deriving DecidableEq, Repr

/-- Python `str.strip()` (source line 40): remove leading and trailing
whitespace characters. -/
def strip (s : String) : String :=
  String.mk (((s.toList.dropWhile Char.isWhitespace).reverse.dropWhile
    Char.isWhitespace).reverse)

/-- parse_fastq (source lines 27–54): the loop strips each line and
cycles `n % 4` through name / seq / spacer / quality, yielding a record
at every fourth line; a trailing group of fewer than four lines is
never yielded.  File opening and decompression are I/O collaborators;
the reader is modelled on the list of decoded text lines. -/
def parse_fastq : List String → List Record
  | name :: seq :: spacer :: qua :: rest =>
      ⟨strip name, strip seq, strip spacer, strip qua⟩ :: parse_fastq rest
  | _ => []

/-- is_s35_bad (source lines 125–145): bad when the quality string is
shorter than 35, or when fewer than 25 of the first 35 characters have
`ord(qua[i]) - quafmt >= 30`.  The `assert quafmt in [33, 64]` at source
line 132 is carried as a hypothesis on the theorems that use this
function and as the argparse `choices` check in `main_run`. -/
def is_s35_bad (qua : String) (quafmt : ℤ) : Bool :=
  if qua.length < 35 then
    true
  else
    let q30 :=
      ((List.range 35).filter
        (fun i => 30 ≤ ((qua.toList.getD i ' ').toNat : ℤ) - quafmt)).length
    decide (q30 < 25)

/-- is_ns (source lines 148–157): bad when the sequence contains the
character `N` (Python `'N' in seq`, case-sensitive). -/
def is_ns (seq : String) : Bool :=
  seq.toList.contains 'N'

/-- is_polyn (source lines 160–179): bad when the count of `A`, `T`,
`C` or `G` divided by the sequence length reaches the threshold
(default `0.85` at the call sites).  Python's float division is
modelled by exact rational division. -/
def is_polyn (seq : String) (threshold : ℚ) : Bool :=
  if (seq.toList.count 'A' : ℚ) / (seq.length : ℚ) ≥ threshold then true
  else if (seq.toList.count 'T' : ℚ) / (seq.length : ℚ) ≥ threshold then true
  else if (seq.toList.count 'C' : ℚ) / (seq.length : ℚ) ≥ threshold then true
  else if (seq.toList.count 'G' : ℚ) / (seq.length : ℚ) ≥ threshold then true
  else false

/-- The filter configuration of one run: the keyword arguments of
`solexa_reads_filter` (source lines 57–58).  `min_len` is an `Int`
because argparse parses `-r` with `type=int`. -/
structure FilterConfig where
  quafmt : ℤ
  min_len : ℤ
  s35 : Bool
  ns : Bool
  polyn : Bool
deriving DecidableEq, Repr

/-- The module counters of `solexa_reads_filter` (source lines 60–69). -/
structure RunStats where
  n_total_seq : ℕ
  n_total_base : ℕ
  n_mlen_drop_seq : ℕ
  n_mlen_drop_base : ℕ
  n_s35_drop_seq : ℕ
  n_s35_drop_base : ℕ
  n_ns_drop_seq : ℕ
  n_ns_drop_base : ℕ
  n_polyn_drop_seq : ℕ
  n_polyn_drop_base : ℕ
deriving DecidableEq, Repr

/-- All counters start at zero (source lines 60–69). -/
def initStats : RunStats :=
  ⟨0, 0, 0, 0, 0, 0, 0, 0, 0, 0⟩

/-- The bases of a pair: `len(seq_1) + len(seq_2)` (source line 76). -/
def pairBases (p : Record × Record) : ℕ :=
  p.1.seq.length + p.2.seq.length

/-- The outcome of the filter cascade on one pair: which `continue`
branch of the loop body (source lines 82–100) fires, or `pass`. -/
inductive FilterOutcome where
  | mlenDrop
  | s35Drop
  | nsDrop
  | polynDrop
  | pass
deriving DecidableEq, Repr

/-- The filter cascade of the loop body (source lines 82–100): length,
then s35 (if enabled), then Ns (if enabled), then polyN (if enabled),
each testing both mates, short-circuiting at the first failure. -/
def classify (cfg : FilterConfig) (p : Record × Record) : FilterOutcome :=
  if (p.1.seq.length : ℤ) < cfg.min_len ∨ (p.2.seq.length : ℤ) < cfg.min_len then
    .mlenDrop
  else if cfg.s35 ∧ (is_s35_bad p.1.qua cfg.quafmt ∨ is_s35_bad p.2.qua cfg.quafmt) then
    .s35Drop
  else if cfg.ns ∧ (is_ns p.1.seq ∨ is_ns p.2.seq) then
    .nsDrop
  else if cfg.polyn ∧ (is_polyn p.1.seq (85/100) ∨ is_polyn p.2.seq (85/100)) then
    .polynDrop
  else
    .pass

/-- One loop iteration's effect on the counters (source lines 75–100):
the totals are incremented for every pair pulled, before any filter
runs; then exactly the drop category of the first failing enabled
filter (if any) is incremented by 2 reads and the pair's bases. -/
def updateStats (cfg : FilterConfig) (s : RunStats) (p : Record × Record) : RunStats :=
  let b := pairBases p
  let s := { s with
    n_total_seq := s.n_total_seq + 2
    n_total_base := s.n_total_base + b }
  match classify cfg p with
  | .mlenDrop =>
      { s with n_mlen_drop_seq := s.n_mlen_drop_seq + 2
               n_mlen_drop_base := s.n_mlen_drop_base + b }
  | .s35Drop =>
      { s with n_s35_drop_seq := s.n_s35_drop_seq + 2
               n_s35_drop_base := s.n_s35_drop_base + b }
  | .nsDrop =>
      { s with n_ns_drop_seq := s.n_ns_drop_seq + 2
               n_ns_drop_base := s.n_ns_drop_base + b }
  | .polynDrop =>
      { s with n_polyn_drop_seq := s.n_polyn_drop_seq + 2
               n_polyn_drop_base := s.n_polyn_drop_base + b }
  | .pass => s

/-- solexa_reads_filter (source lines 57–102): the generator loop over
`izip(parse_fastq(r1_path), parse_fastq(r2_path))`, returning the
yielded pairs together with the final counters.  The pair list argument
is the zip of the two record streams; the counters are threaded
explicitly instead of being module globals. -/
def solexa_reads_filter (cfg : FilterConfig) :
    List (Record × Record) → RunStats → List (Record × Record) × RunStats
  | [], s => ([], s)
  | p :: rest, s =>
      let s1 := updateStats cfg s p
      let r := solexa_reads_filter cfg rest s1
      if classify cfg p = .pass then (p :: r.1, r.2) else r

/-- The pair stream of a run: `izip` of the two record readers
(source line 72), which truncates to the shorter stream. -/
def pairStream (lines1 lines2 : List String) : List (Record × Record) :=
  (parse_fastq lines1).zip (parse_fastq lines2)

/-! ### Helper lemmas -/

/-- Indexing the first `n` positions of a list with `getD` enumerates
exactly the prefix `take n` when the list is long enough. -/
theorem range_map_getD {α : Type} (l : List α) (d : α) (n : ℕ) (h : n ≤ l.length) :
    (List.range n).map (fun i => l.getD i d) = l.take n := by
  apply List.ext_getElem
  · simp [h]
  · intro i h1 h2
    simp only [List.getElem_map, List.getElem_range, List.getElem_take]
    have hi : i < l.length := lt_of_lt_of_le (by simpa using h1) h
    rw [List.getD_eq_getElem l d hi]

/-- C2: for every quality string and encoding offset in {33, 64}, the
s35 filter fails iff the string is shorter than 35, or fewer than 25 of
its first 35 characters decode via `char_code - offset` to ≥ 30; only
the first 35 positions are inspected. -/
theorem c2_s35_filter_spec (qua : String) (quafmt : ℤ)
    (hq : quafmt = 33 ∨ quafmt = 64) :
    is_s35_bad qua quafmt = true ↔
      qua.length < 35 ∨
      ((qua.toList.take 35).filter
        (fun c => decide (30 ≤ (c.toNat : ℤ) - quafmt))).length < 25 := by
  unfold is_s35_bad
  by_cases h : qua.length < 35
  · rw [if_pos h]
    exact iff_of_true rfl (Or.inl h)
  · have hlen : 35 ≤ qua.toList.length := not_lt.mp h
    have key : ((List.range 35).filter
          (fun i => decide (30 ≤ ((qua.toList.getD i ' ').toNat : ℤ) - quafmt))).length
        = ((qua.toList.take 35).filter
          (fun c => decide (30 ≤ (c.toNat : ℤ) - quafmt))).length := by
      conv_rhs => rw [← range_map_getD qua.toList ' ' 35 hlen]
      rw [List.filter_map, List.length_map]
      rfl
    rw [if_neg h]
    simp only [decide_eq_true_eq]
    rw [key]
    exact (or_iff_right h).symm

/-- C2 witness: a 35-character quality string with exactly 25 characters
decoding to ≥ 30 at offset 33 passes the s35 filter. -/
theorem c2_s35_filter_witness :
    (33 : ℤ) = 33 ∧
    is_s35_bad "ZZZZZZZZZZZZZZZZZZZZZZZZZ##########" 33 = false := by
  refine ⟨rfl, ?_⟩
  have h := c2_s35_filter_spec "ZZZZZZZZZZZZZZZZZZZZZZZZZ##########" 33 (Or.inl rfl)
  cases hb : is_s35_bad "ZZZZZZZZZZZZZZZZZZZZZZZZZ##########" 33
  · rfl
  · exact absurd (h.mp hb) (by decide)

/-- C5: the Ns filter fails exactly on sequences containing the
uppercase character `N`; any sequence free of uppercase `N` (for
example one whose only ambiguous calls are lowercase `n`) passes. -/
theorem c5_ns_filter_spec (seq : String) :
    (is_ns seq = true ↔ 'N' ∈ seq.toList) ∧
    ((∀ c ∈ seq.toList, c ≠ 'N') → is_ns seq = false) := by
  constructor
  · simp [is_ns]
  · intro h
    have h1 : 'N' ∉ seq.toList := fun hm => h 'N' hm rfl
    cases hb : is_ns seq
    · rfl
    · exact absurd (by simpa [is_ns] using hb) h1

/-- C5 witness: a sequence whose only ambiguous calls are lowercase `n`
passes the Ns filter. -/
theorem c5_ns_filter_witness :
    (∀ c ∈ "ACGnnT".toList, c ≠ 'N') ∧ is_ns "ACGnnT" = false :=
  ⟨by decide, (c5_ns_filter_spec "ACGnnT").2 (by decide)⟩

/-- C3: on a non-empty sequence, the polyN filter at threshold 0.85
fails iff some base among the exact characters `A`, `T`, `C`, `G` makes
up at least 85/100 of the sequence (count / length ≥ 0.85, stated here
by cross-multiplication). -/
theorem c3_polyn_filter_spec (seq : String) (h : seq ≠ "") :
    is_polyn seq (85/100) = true ↔
      ∃ c ∈ ['A', 'T', 'C', 'G'], 85 * seq.length ≤ 100 * seq.toList.count c := by
  have hpos : 0 < seq.length := by
    cases hs : seq.length with
    | zero => exact absurd (String.ext (List.eq_nil_of_length_eq_zero hs)) h
    | succ n => exact Nat.succ_pos n
  have hq : (0 : ℚ) < (seq.length : ℚ) := by exact_mod_cast hpos
  have key : ∀ n : ℕ,
      ((n : ℚ) / (seq.length : ℚ) ≥ 85/100 ↔ 85 * seq.length ≤ 100 * n) := by
    intro n
    rw [ge_iff_le, div_le_div_iff (by norm_num) hq, mul_comm (n : ℚ) 100]
    norm_cast
  unfold is_polyn
  split_ifs with h1 h2 h3 h4
  · exact iff_of_true rfl ⟨'A', by simp, (key _).mp h1⟩
  · exact iff_of_true rfl ⟨'T', by simp, (key _).mp h2⟩
  · exact iff_of_true rfl ⟨'C', by simp, (key _).mp h3⟩
  · exact iff_of_true rfl ⟨'G', by simp, (key _).mp h4⟩
  · refine iff_of_false (by simp) ?_
    rintro ⟨c, hc, hcount⟩
    simp only [List.mem_cons, List.not_mem_nil, or_false] at hc
    rcases hc with rfl | rfl | rfl | rfl
    · exact h1 ((key _).mpr hcount)
    · exact h2 ((key _).mpr hcount)
    · exact h3 ((key _).mpr hcount)
    · exact h4 ((key _).mpr hcount)

/-- C3 witness: a length-20 sequence with 17 `A` characters fails the
polyN filter at threshold 0.85, and one with 16 `A` characters and 4
`T` characters passes. -/
theorem c3_polyn_filter_witness :
    "AAAAAAAAAAAAAAAAATTT" ≠ "" ∧
    is_polyn "AAAAAAAAAAAAAAAAATTT" (85/100) = true ∧
    is_polyn "AAAAAAAAAAAAAAAATTTT" (85/100) = false := by
  refine ⟨by decide, ?_, ?_⟩
  · exact (c3_polyn_filter_spec "AAAAAAAAAAAAAAAAATTT" (by decide)).mpr
      ⟨'A', by decide, by decide⟩
  · have h := c3_polyn_filter_spec "AAAAAAAAAAAAAAAATTTT" (by decide)
    cases hb : is_polyn "AAAAAAAAAAAAAAAATTTT" (85/100)
    · rfl
    · exact absurd (h.mp hb) (by decide)

/-! ### Pipeline decomposition lemmas -/

/-- The pairs yielded by the pipeline are exactly those the cascade
classifies as `pass`, in input order. -/
theorem srf_fst (cfg : FilterConfig) (pairs : List (Record × Record)) (s : RunStats) :
    (solexa_reads_filter cfg pairs s).1 =
      pairs.filter (fun p => classify cfg p = FilterOutcome.pass) := by
  induction pairs generalizing s with
  | nil => rfl
  | cons p rest ih =>
      rw [solexa_reads_filter]
      by_cases h : classify cfg p = FilterOutcome.pass
      · simp [h, List.filter_cons, ih]
      · simp [h, List.filter_cons, ih]

/-- The final counters are the fold of the per-pair counter update over
the input pairs. -/
theorem srf_snd (cfg : FilterConfig) (pairs : List (Record × Record)) (s : RunStats) :
    (solexa_reads_filter cfg pairs s).2 = pairs.foldl (updateStats cfg) s := by
  induction pairs generalizing s with
  | nil => rfl
  | cons p rest ih =>
      rw [solexa_reads_filter]
      by_cases h : classify cfg p = FilterOutcome.pass
      · simp [h, List.foldl_cons, ih]
      · simp [h, List.foldl_cons, ih]

theorem updateStats_total_seq (cfg : FilterConfig) (s : RunStats) (p : Record × Record) :
    (updateStats cfg s p).n_total_seq = s.n_total_seq + 2 := by
  cases h : classify cfg p <;> simp [updateStats, h]

theorem updateStats_total_base (cfg : FilterConfig) (s : RunStats) (p : Record × Record) :
    (updateStats cfg s p).n_total_base = s.n_total_base + pairBases p := by
  cases h : classify cfg p <;> simp [updateStats, h]

theorem updateStats_mlen_seq (cfg : FilterConfig) (s : RunStats) (p : Record × Record) :
    (updateStats cfg s p).n_mlen_drop_seq = s.n_mlen_drop_seq +
      (if classify cfg p = FilterOutcome.mlenDrop then 2 else 0) := by
  cases h : classify cfg p <;> simp [updateStats, h]

theorem updateStats_mlen_base (cfg : FilterConfig) (s : RunStats) (p : Record × Record) :
    (updateStats cfg s p).n_mlen_drop_base = s.n_mlen_drop_base +
      (if classify cfg p = FilterOutcome.mlenDrop then pairBases p else 0) := by
  cases h : classify cfg p <;> simp [updateStats, h]

theorem updateStats_s35_seq (cfg : FilterConfig) (s : RunStats) (p : Record × Record) :
    (updateStats cfg s p).n_s35_drop_seq = s.n_s35_drop_seq +
      (if classify cfg p = FilterOutcome.s35Drop then 2 else 0) := by
  cases h : classify cfg p <;> simp [updateStats, h]

theorem updateStats_s35_base (cfg : FilterConfig) (s : RunStats) (p : Record × Record) :
    (updateStats cfg s p).n_s35_drop_base = s.n_s35_drop_base +
      (if classify cfg p = FilterOutcome.s35Drop then pairBases p else 0) := by
  cases h : classify cfg p <;> simp [updateStats, h]

theorem updateStats_ns_seq (cfg : FilterConfig) (s : RunStats) (p : Record × Record) :
    (updateStats cfg s p).n_ns_drop_seq = s.n_ns_drop_seq +
      (if classify cfg p = FilterOutcome.nsDrop then 2 else 0) := by
  cases h : classify cfg p <;> simp [updateStats, h]

theorem updateStats_ns_base (cfg : FilterConfig) (s : RunStats) (p : Record × Record) :
    (updateStats cfg s p).n_ns_drop_base = s.n_ns_drop_base +
      (if classify cfg p = FilterOutcome.nsDrop then pairBases p else 0) := by
  cases h : classify cfg p <;> simp [updateStats, h]

theorem updateStats_polyn_seq (cfg : FilterConfig) (s : RunStats) (p : Record × Record) :
    (updateStats cfg s p).n_polyn_drop_seq = s.n_polyn_drop_seq +
      (if classify cfg p = FilterOutcome.polynDrop then 2 else 0) := by
  cases h : classify cfg p <;> simp [updateStats, h]

theorem updateStats_polyn_base (cfg : FilterConfig) (s : RunStats) (p : Record × Record) :
    (updateStats cfg s p).n_polyn_drop_base = s.n_polyn_drop_base +
      (if classify cfg p = FilterOutcome.polynDrop then pairBases p else 0) := by
  cases h : classify cfg p <;> simp [updateStats, h]

/-- A counter field that gains `g p` at every update gains the sum of
`g` over the whole input. -/
theorem foldl_updateStats_field (cfg : FilterConfig) (f : RunStats → ℕ)
    (g : Record × Record → ℕ)
    (hf : ∀ s p, f (updateStats cfg s p) = f s + g p) :
    ∀ (pairs : List (Record × Record)) (s : RunStats),
      f (pairs.foldl (updateStats cfg) s) = f s + (pairs.map g).sum := by
  intro pairs
  induction pairs with
  | nil => intro s; simp
  | cons p rest ih =>
      intro s
      simp only [List.foldl_cons, List.map_cons, List.sum_cons]
      rw [ih, hf]
      omega

theorem sum_map_const {α : Type} (c : ℕ) (l : List α) :
    (l.map (fun _ => c)).sum = c * l.length := by
  induction l with
  | nil => simp
  | cons x xs ih => simp [ih]; ring

theorem sum_map_ite_const {α : Type} (P : α → Prop) [DecidablePred P] (a : ℕ)
    (l : List α) :
    (l.map (fun x => if P x then a else 0)).sum =
      a * (l.filter (fun x => P x)).length := by
  induction l with
  | nil => simp
  | cons x xs ih =>
      by_cases h : P x <;> simp [h, List.filter_cons, ih] <;> ring

theorem sum_map_ite_fn {α : Type} (P : α → Prop) [DecidablePred P] (g : α → ℕ)
    (l : List α) :
    (l.map (fun x => if P x then g x else 0)).sum =
      ((l.filter (fun x => P x)).map g).sum := by
  induction l with
  | nil => rfl
  | cons x xs ih => by_cases h : P x <;> simp [h, List.filter_cons, ih]

/-- Every pair lands in exactly one of the five cascade outcomes. -/
theorem classify_partition_length (cfg : FilterConfig) (pairs : List (Record × Record)) :
    pairs.length =
      (pairs.filter (fun p => classify cfg p = FilterOutcome.mlenDrop)).length +
      (pairs.filter (fun p => classify cfg p = FilterOutcome.s35Drop)).length +
      (pairs.filter (fun p => classify cfg p = FilterOutcome.nsDrop)).length +
      (pairs.filter (fun p => classify cfg p = FilterOutcome.polynDrop)).length +
      (pairs.filter (fun p => classify cfg p = FilterOutcome.pass)).length := by
  induction pairs with
  | nil => rfl
  | cons p rest ih =>
      cases h : classify cfg p <;> simp [List.filter_cons, h, ih] <;> omega

/-- The bases of the input split across the five cascade outcomes. -/
theorem classify_partition_bases (cfg : FilterConfig) (pairs : List (Record × Record)) :
    (pairs.map pairBases).sum =
      ((pairs.filter (fun p => classify cfg p = FilterOutcome.mlenDrop)).map pairBases).sum +
      ((pairs.filter (fun p => classify cfg p = FilterOutcome.s35Drop)).map pairBases).sum +
      ((pairs.filter (fun p => classify cfg p = FilterOutcome.nsDrop)).map pairBases).sum +
      ((pairs.filter (fun p => classify cfg p = FilterOutcome.polynDrop)).map pairBases).sum +
      ((pairs.filter (fun p => classify cfg p = FilterOutcome.pass)).map pairBases).sum := by
  induction pairs with
  | nil => rfl
  | cons p rest ih =>
      cases h : classify cfg p <;> simp [List.filter_cons, h, ih] <;> omega

/-- C1: in a full run from zeroed counters, the totals count every pair
pulled (2 reads and both mates' bases per pair, independent of the
filters); each drop category counts exactly the pairs whose first
failing enabled filter it is; and the per-filter drops plus the
retained 2 × emitted pairs (resp. emitted bases) sum back to the
totals. -/
theorem c1_stats_invariant (cfg : FilterConfig) (pairs : List (Record × Record)) :
    (solexa_reads_filter cfg pairs initStats).2.n_total_seq = 2 * pairs.length ∧
    (solexa_reads_filter cfg pairs initStats).2.n_total_base = (pairs.map pairBases).sum ∧
    (solexa_reads_filter cfg pairs initStats).2.n_mlen_drop_seq =
      2 * (pairs.filter (fun p => classify cfg p = FilterOutcome.mlenDrop)).length ∧
    (solexa_reads_filter cfg pairs initStats).2.n_mlen_drop_base =
      ((pairs.filter (fun p => classify cfg p = FilterOutcome.mlenDrop)).map pairBases).sum ∧
    (solexa_reads_filter cfg pairs initStats).2.n_s35_drop_seq =
      2 * (pairs.filter (fun p => classify cfg p = FilterOutcome.s35Drop)).length ∧
    (solexa_reads_filter cfg pairs initStats).2.n_s35_drop_base =
      ((pairs.filter (fun p => classify cfg p = FilterOutcome.s35Drop)).map pairBases).sum ∧
    (solexa_reads_filter cfg pairs initStats).2.n_ns_drop_seq =
      2 * (pairs.filter (fun p => classify cfg p = FilterOutcome.nsDrop)).length ∧
    (solexa_reads_filter cfg pairs initStats).2.n_ns_drop_base =
      ((pairs.filter (fun p => classify cfg p = FilterOutcome.nsDrop)).map pairBases).sum ∧
    (solexa_reads_filter cfg pairs initStats).2.n_polyn_drop_seq =
      2 * (pairs.filter (fun p => classify cfg p = FilterOutcome.polynDrop)).length ∧
    (solexa_reads_filter cfg pairs initStats).2.n_polyn_drop_base =
      ((pairs.filter (fun p => classify cfg p = FilterOutcome.polynDrop)).map pairBases).sum ∧
    (solexa_reads_filter cfg pairs initStats).2.n_total_seq =
      (solexa_reads_filter cfg pairs initStats).2.n_mlen_drop_seq +
      (solexa_reads_filter cfg pairs initStats).2.n_s35_drop_seq +
      (solexa_reads_filter cfg pairs initStats).2.n_ns_drop_seq +
      (solexa_reads_filter cfg pairs initStats).2.n_polyn_drop_seq +
      2 * (solexa_reads_filter cfg pairs initStats).1.length ∧
    (solexa_reads_filter cfg pairs initStats).2.n_total_base =
      (solexa_reads_filter cfg pairs initStats).2.n_mlen_drop_base +
      (solexa_reads_filter cfg pairs initStats).2.n_s35_drop_base +
      (solexa_reads_filter cfg pairs initStats).2.n_ns_drop_base +
      (solexa_reads_filter cfg pairs initStats).2.n_polyn_drop_base +
      ((solexa_reads_filter cfg pairs initStats).1.map pairBases).sum := by
  have hsnd := srf_snd cfg pairs initStats
  have hts : (solexa_reads_filter cfg pairs initStats).2.n_total_seq = 2 * pairs.length := by
    rw [hsnd, foldl_updateStats_field cfg (fun s => s.n_total_seq) (fun _ => 2)
      (updateStats_total_seq cfg) pairs initStats, sum_map_const]
    simp [initStats]
  have htb : (solexa_reads_filter cfg pairs initStats).2.n_total_base =
      (pairs.map pairBases).sum := by
    rw [hsnd, foldl_updateStats_field cfg (fun s => s.n_total_base) pairBases
      (updateStats_total_base cfg) pairs initStats]
    simp [initStats]
  have hm1 : (solexa_reads_filter cfg pairs initStats).2.n_mlen_drop_seq =
      2 * (pairs.filter (fun p => classify cfg p = FilterOutcome.mlenDrop)).length := by
    rw [hsnd, foldl_updateStats_field cfg (fun s => s.n_mlen_drop_seq)
      (fun p => if classify cfg p = FilterOutcome.mlenDrop then 2 else 0)
      (updateStats_mlen_seq cfg) pairs initStats, sum_map_ite_const]
    simp [initStats]
  have hm2 : (solexa_reads_filter cfg pairs initStats).2.n_mlen_drop_base =
      ((pairs.filter (fun p => classify cfg p = FilterOutcome.mlenDrop)).map pairBases).sum := by
    rw [hsnd, foldl_updateStats_field cfg (fun s => s.n_mlen_drop_base)
      (fun p => if classify cfg p = FilterOutcome.mlenDrop then pairBases p else 0)
      (updateStats_mlen_base cfg) pairs initStats, sum_map_ite_fn]
    simp [initStats]
  have hs1 : (solexa_reads_filter cfg pairs initStats).2.n_s35_drop_seq =
      2 * (pairs.filter (fun p => classify cfg p = FilterOutcome.s35Drop)).length := by
    rw [hsnd, foldl_updateStats_field cfg (fun s => s.n_s35_drop_seq)
      (fun p => if classify cfg p = FilterOutcome.s35Drop then 2 else 0)
      (updateStats_s35_seq cfg) pairs initStats, sum_map_ite_const]
    simp [initStats]
  have hs2 : (solexa_reads_filter cfg pairs initStats).2.n_s35_drop_base =
      ((pairs.filter (fun p => classify cfg p = FilterOutcome.s35Drop)).map pairBases).sum := by
    rw [hsnd, foldl_updateStats_field cfg (fun s => s.n_s35_drop_base)
      (fun p => if classify cfg p = FilterOutcome.s35Drop then pairBases p else 0)
      (updateStats_s35_base cfg) pairs initStats, sum_map_ite_fn]
    simp [initStats]
  have hn1 : (solexa_reads_filter cfg pairs initStats).2.n_ns_drop_seq =
      2 * (pairs.filter (fun p => classify cfg p = FilterOutcome.nsDrop)).length := by
    rw [hsnd, foldl_updateStats_field cfg (fun s => s.n_ns_drop_seq)
      (fun p => if classify cfg p = FilterOutcome.nsDrop then 2 else 0)
      (updateStats_ns_seq cfg) pairs initStats, sum_map_ite_const]
    simp [initStats]
  have hn2 : (solexa_reads_filter cfg pairs initStats).2.n_ns_drop_base =
      ((pairs.filter (fun p => classify cfg p = FilterOutcome.nsDrop)).map pairBases).sum := by
    rw [hsnd, foldl_updateStats_field cfg (fun s => s.n_ns_drop_base)
      (fun p => if classify cfg p = FilterOutcome.nsDrop then pairBases p else 0)
      (updateStats_ns_base cfg) pairs initStats, sum_map_ite_fn]
    simp [initStats]
  have hp1 : (solexa_reads_filter cfg pairs initStats).2.n_polyn_drop_seq =
      2 * (pairs.filter (fun p => classify cfg p = FilterOutcome.polynDrop)).length := by
    rw [hsnd, foldl_updateStats_field cfg (fun s => s.n_polyn_drop_seq)
      (fun p => if classify cfg p = FilterOutcome.polynDrop then 2 else 0)
      (updateStats_polyn_seq cfg) pairs initStats, sum_map_ite_const]
    simp [initStats]
  have hp2 : (solexa_reads_filter cfg pairs initStats).2.n_polyn_drop_base =
      ((pairs.filter (fun p => classify cfg p = FilterOutcome.polynDrop)).map pairBases).sum := by
    rw [hsnd, foldl_updateStats_field cfg (fun s => s.n_polyn_drop_base)
      (fun p => if classify cfg p = FilterOutcome.polynDrop then pairBases p else 0)
      (updateStats_polyn_base cfg) pairs initStats, sum_map_ite_fn]
    simp [initStats]
  have hout : (solexa_reads_filter cfg pairs initStats).1 =
      pairs.filter (fun p => classify cfg p = FilterOutcome.pass) :=
    srf_fst cfg pairs initStats
  refine ⟨hts, htb, hm1, hm2, hs1, hs2, hn1, hn2, hp1, hp2, ?_, ?_⟩
  · rw [hts, hm1, hs1, hn1, hp1, hout]
    have := classify_partition_length cfg pairs
    omega
  · rw [htb, hm2, hs2, hn2, hp2, hout]
    have := classify_partition_bases cfg pairs
    omega

/-- C10: for every configuration and input, the emitted pairs form an
order-preserving subsequence of the pairs pulled from the synchronizer;
each emitted pair is an input pair, unmodified, emitted at most once
per occurrence. -/
theorem c10_emitted_sublist (cfg : FilterConfig) (pairs : List (Record × Record))
    (s : RunStats) :
    List.Sublist (solexa_reads_filter cfg pairs s).1 pairs := by
  rw [srf_fst]
  exact List.filter_sublist pairs

/-- C9: when the three toggles are disabled and every mate of every
pair meets the minimum length, the pipeline emits the whole zipped
input, record for record, in its original order. -/
theorem c9_no_filter_roundtrip (cfg : FilterConfig) (r1s r2s : List Record)
    (hs : cfg.s35 = false) (hn : cfg.ns = false) (hp : cfg.polyn = false)
    (hcount : r1s.length = r2s.length)
    (hlen : ∀ p ∈ r1s.zip r2s, cfg.min_len ≤ (p.1.seq.length : ℤ) ∧
      cfg.min_len ≤ (p.2.seq.length : ℤ)) :
    (solexa_reads_filter cfg (r1s.zip r2s) initStats).1 = r1s.zip r2s := by
  rw [srf_fst]
  apply List.filter_eq_self.mpr
  intro p hp'
  have h := hlen p hp'
  simp only [classify, hs, hn, hp, decide_eq_true_eq]
  rw [if_neg (by omega)]
  simp

/-- C9 witness: a one-pair input with all three toggles off and
length-4 mates is emitted unchanged. -/
theorem c9_no_filter_roundtrip_witness :
    ((FilterConfig.mk 33 1 false false false).s35 = false) ∧
    ((solexa_reads_filter (FilterConfig.mk 33 1 false false false)
      ([Record.mk "@a" "ACGT" "+" "IIII"].zip [Record.mk "@b" "TTTT" "+" "JJJJ"])
      initStats).1 =
      [Record.mk "@a" "ACGT" "+" "IIII"].zip [Record.mk "@b" "TTTT" "+" "JJJJ"]) :=
  ⟨rfl, c9_no_filter_roundtrip (FilterConfig.mk 33 1 false false false)
    [Record.mk "@a" "ACGT" "+" "IIII"] [Record.mk "@b" "TTTT" "+" "JJJJ"]
    rfl rfl rfl rfl (by decide)⟩

/-- The loop body reaches the polyN check of source line 97: the pair
passed the length test (source line 82), the s35 test did not fire
(source line 87), the Ns test did not fire (source line 92), and the
polyN toggle is on. -/
def reaches_polyn (cfg : FilterConfig) (p : Record × Record) : Prop :=
  ¬((p.1.seq.length : ℤ) < cfg.min_len ∨ (p.2.seq.length : ℤ) < cfg.min_len) ∧
  ¬(cfg.s35 ∧ (is_s35_bad p.1.qua cfg.quafmt ∨ is_s35_bad p.2.qua cfg.quafmt)) ∧
  ¬(cfg.ns ∧ (is_ns p.1.seq ∨ is_ns p.2.seq)) ∧
  cfg.polyn = true

/-- C6: with `min_len ≥ 1`, every pair on which the pipeline invokes
the polyN filter has two non-empty mates, so the divisor
`len(seq)` inside `is_polyn` is non-zero. -/
theorem c6_polyn_guarded (cfg : FilterConfig) (p : Record × Record)
    (hmin : 1 ≤ cfg.min_len) (hr : reaches_polyn cfg p) :
    0 < p.1.seq.length ∧ 0 < p.2.seq.length ∧
    ((p.1.seq.length : ℚ) ≠ 0 ∧ (p.2.seq.length : ℚ) ≠ 0) := by
  obtain ⟨hlen, -, -, -⟩ := hr
  push_neg at hlen
  obtain ⟨h1, h2⟩ := hlen
  have g1 : 0 < p.1.seq.length := by omega
  have g2 : 0 < p.2.seq.length := by omega
  refine ⟨g1, g2, ?_, ?_⟩
  · exact_mod_cast Nat.pos_iff_ne_zero.mp g1
  · exact_mod_cast Nat.pos_iff_ne_zero.mp g2

/-- C6 witness: a pair of length-4 mates reaches the polyN check under
`min_len = 1` and has non-zero divisors. -/
theorem c6_polyn_guarded_witness :
    (1 : ℤ) ≤ (1 : ℤ) ∧
    reaches_polyn (FilterConfig.mk 33 1 false false true)
      (Record.mk "@a" "ACGT" "+" "IIII", Record.mk "@b" "TTTT" "+" "JJJJ") ∧
    0 < (Record.mk "@a" "ACGT" "+" "IIII").seq.length :=
  ⟨le_refl 1, by unfold reaches_polyn; decide,
    (c6_polyn_guarded (FilterConfig.mk 33 1 false false true)
      (Record.mk "@a" "ACGT" "+" "IIII", Record.mk "@b" "TTTT" "+" "JJJJ")
      (le_refl 1)
      (by unfold reaches_polyn; decide)).1⟩

/-- Python division as used at source lines 106 and 109: raises
`ZeroDivisionError` when the divisor is zero, modelled as `Except`. -/
def pydiv (a b : ℚ) : Except String ℚ :=
  if b = 0 then Except.error "ZeroDivisionError" else Except.ok (a / b)

/-- Python `round(x, 2)` over exact rationals: nearest value with two
decimal places (source lines 106 and 109). -/
def round2 (x : ℚ) : ℚ :=
  (round (x * 100) : ℤ) / 100

/-- The end-of-stream statistics block of `solexa_reads_filter` (source
lines 104–109): retained reads and bases by subtraction, and retained
percentages by division by the totals.  The divisions have no zero
guard in the source. -/
def report (s : RunStats) : Except String ((ℤ × ℚ) × (ℤ × ℚ)) := do
  let n_retained_seq : ℤ :=
    (s.n_total_seq : ℤ) - s.n_mlen_drop_seq - s.n_s35_drop_seq
      - (s.n_ns_drop_seq + s.n_polyn_drop_seq)
  let q ← pydiv (n_retained_seq : ℚ) (s.n_total_seq : ℚ)
  let n_retained_seq_pct := round2 (q * 100)
  let n_retained_base : ℤ :=
    (s.n_total_base : ℤ) - s.n_mlen_drop_base - s.n_s35_drop_base
      - (s.n_ns_drop_base + s.n_polyn_drop_base)
  let qb ← pydiv (n_retained_base : ℚ) (s.n_total_base : ℚ)
  let n_retained_base_pct := round2 (qb * 100)
  return ((n_retained_seq, n_retained_seq_pct), (n_retained_base, n_retained_base_pct))

/-- C4: on a run that pulled no pairs the total-read counter is zero
and the statistics block raises `ZeroDivisionError` instead of
reporting a not-applicable percentage. -/
theorem c4_report_zero_total_raises (cfg : FilterConfig) :
    (solexa_reads_filter cfg [] initStats).2.n_total_seq = 0 ∧
    report (solexa_reads_filter cfg [] initStats).2 =
      Except.error "ZeroDivisionError" := by
  constructor
  · rfl
  · show report initStats = Except.error "ZeroDivisionError"
    rfl

/-- main (source lines 182–254): argparse validates `-Q` against
`choices=[33, 64]` and aborts with a usage error before any input file
is opened; on valid arguments it drives the pipeline over the two
record streams.  The error branch carries no pipeline state: no pair is
pulled and no counter exists when it is taken. -/
def main_run (cfg : FilterConfig) (lines1 lines2 : List String) :
    Except String (List (Record × Record) × RunStats) :=
  if cfg.quafmt = 33 ∨ cfg.quafmt = 64 then
    Except.ok (solexa_reads_filter cfg (pairStream lines1 lines2) initStats)
  else
    Except.error "argument -Q: invalid choice"

/-- C7: a quality-encoding offset other than 33 or 64 makes the run
fail with a configuration error, producing no pipeline result — no
pair is pulled and no counter is ever incremented. -/
theorem c7_invalid_offset_fatal (cfg : FilterConfig) (lines1 lines2 : List String)
    (h33 : cfg.quafmt ≠ 33) (h64 : cfg.quafmt ≠ 64) :
    main_run cfg lines1 lines2 = Except.error "argument -Q: invalid choice" ∧
    ∀ out, main_run cfg lines1 lines2 ≠ Except.ok out := by
  have h : ¬(cfg.quafmt = 33 ∨ cfg.quafmt = 64) := by
    rintro (h | h)
    · exact h33 h
    · exact h64 h
  constructor
  · simp [main_run, h]
  · intro out
    simp [main_run, h]

/-- C7 witness: offset 59 is rejected before any processing. -/
theorem c7_invalid_offset_fatal_witness :
    (59 : ℤ) ≠ 33 ∧ (59 : ℤ) ≠ 64 ∧
    main_run (FilterConfig.mk 59 1 true true true) ["@a", "ACGT", "+", "IIII"]
      ["@b", "TTTT", "+", "JJJJ"] = Except.error "argument -Q: invalid choice" :=
  ⟨by decide, by decide,
    (c7_invalid_offset_fatal (FilterConfig.mk 59 1 true true true)
      ["@a", "ACGT", "+", "IIII"] ["@b", "TTTT", "+", "JJJJ"]
      (by decide) (by decide)).1⟩

theorem parse_fastq_length (lines : List String) :
    (parse_fastq lines).length = lines.length / 4 := by
  induction lines using parse_fastq.induct with
  | case1 a b c d rest ih =>
      simp only [parse_fastq, List.length_cons, ih]
      omega
  | case2 lines h =>
      match lines, h with
      | [], _ => rfl
      | [a], _ => simp [parse_fastq]
      | [a, b], _ => simp [parse_fastq]
      | [a, b, c], _ => simp [parse_fastq]
      | a :: b :: c :: d :: r, hh => exact (hh a b c d r rfl).elim

theorem parse_fastq_getD (lines : List String) (k : ℕ) (hk : k < lines.length / 4) :
    (parse_fastq lines).getD k (Record.mk "" "" "" "") =
      Record.mk (strip (lines.getD (4 * k) "")) (strip (lines.getD (4 * k + 1) ""))
        (strip (lines.getD (4 * k + 2) "")) (strip (lines.getD (4 * k + 3) "")) := by
  induction lines using parse_fastq.induct generalizing k with
  | case1 a b c d rest ih =>
      cases k with
      | zero => simp [parse_fastq]
      | succ k' =>
          have hk' : k' < rest.length / 4 := by
            simp only [List.length_cons] at hk
            omega
          have g0 : (a :: b :: c :: d :: rest).getD (4 * (k' + 1)) "" =
              rest.getD (4 * k') "" := by
            have e : 4 * (k' + 1) = 4 * k' + 1 + 1 + 1 + 1 := by ring
            rw [e]
            simp only [List.getD_cons_succ]
          have g1 : (b :: c :: d :: rest).getD (4 * (k' + 1)) "" =
              rest.getD (4 * k' + 1) "" := by
            have e : 4 * (k' + 1) = 4 * k' + 1 + 1 + 1 + 1 := by ring
            rw [e]
            simp only [List.getD_cons_succ]
          have g2 : (c :: d :: rest).getD (4 * (k' + 1)) "" =
              rest.getD (4 * k' + 2) "" := by
            have e : 4 * (k' + 1) = 4 * k' + 2 + 1 + 1 := by ring
            rw [e]
            simp only [List.getD_cons_succ]
          have g3 : (d :: rest).getD (4 * (k' + 1)) "" =
              rest.getD (4 * k' + 3) "" := by
            have e : 4 * (k' + 1) = 4 * k' + 3 + 1 := by ring
            rw [e]
            simp only [List.getD_cons_succ]
          simp only [parse_fastq, List.getD_cons_succ]
          rw [ih k' hk', g0, g1, g2, g3]
  | case2 lines h =>
      exfalso
      match lines, h, hk with
      | [], _, hk => exact absurd hk (by simp)
      | [a], _, hk => exact absurd hk (by simp)
      | [a, b], _, hk => exact absurd hk (by simp)
      | [a, b, c], _, hk => exact absurd hk (by simp)
      | a :: b :: c :: d :: r, hh, _ => exact (hh a b c d r rfl).elim

/-- C8: the record reader yields exactly `⌊lines / 4⌋` records, the
`k`-th being the whitespace-stripped lines `4k … 4k+3` in the order
name, sequence, spacer, quality; a trailing partial group contributes
no record. -/
theorem c8_record_reader_spec (lines : List String) :
    (parse_fastq lines).length = lines.length / 4 ∧
    ∀ k, k < lines.length / 4 →
      (parse_fastq lines).getD k (Record.mk "" "" "" "") =
        Record.mk (strip (lines.getD (4 * k) "")) (strip (lines.getD (4 * k + 1) ""))
          (strip (lines.getD (4 * k + 2) "")) (strip (lines.getD (4 * k + 3) "")) :=
  ⟨parse_fastq_length lines, fun k hk => parse_fastq_getD lines k hk⟩

/-- C8 witness: seven lines give exactly one record — the stripped
first four lines — and the trailing three-line group is dropped. -/
theorem c8_record_reader_witness :
    (parse_fastq ["@r1 ", " ACGT", "+", "IIII ", "@r2", "TTTT", "+"]).length = 1 ∧
    (0 : ℕ) < 7 / 4 ∧
    (parse_fastq ["@r1 ", " ACGT", "+", "IIII ", "@r2", "TTTT", "+"]).getD 0
      (Record.mk "" "" "" "") = Record.mk "@r1" "ACGT" "+" "IIII" := by
  refine ⟨?_, by norm_num, ?_⟩
  · have h := (c8_record_reader_spec ["@r1 ", " ACGT", "+", "IIII ", "@r2", "TTTT", "+"]).1
    simpa using h
  · have h := (c8_record_reader_spec ["@r1 ", " ACGT", "+", "IIII ", "@r2", "TTTT", "+"]).2
      0 (by norm_num)
    rw [h]
    decide
